import Mathlib

/-! Shallow embedding of the aion_utils state-storage layer:
    src/accounts/src/accounts.rs (FVMAccount / AVMAccount) and the trie
    interface of src/patricia_trie/src/lib.rs.

    Machine integers (U256, U128, H256, H128) are modelled as Nat; byte
    strings as List Nat.  The blake2b digest function, the RLP codec and
    the concrete trie node machinery live in crates outside src/ and are
    modelled from the spec as injective constructors (the spec treats the
    codec as an opaque encode/decode pair over structured values and the
    digest as an opaque injective 256-bit hash). -/

/-- Clean/dirty marker for unsaved in-memory mutation (`Filth` in accounts.rs). -/
inductive Filth
  | Clean
  | Dirty
deriving DecidableEq, Repr

/-- Trie keys.  FVM storage keys are 16-byte H128 values and AVM keys are raw
byte strings; both enter the per-account storage sub-trie through injective
byte encodings, modelled by the two constructors.  (The secure-trie hashing
of keys is a further injective transform and is elided.) -/
inductive TK
  | fvm (k : Nat)
  | avm (b : List Nat)
deriving DecidableEq, Repr

/-- Modelled from the spec: RLP-encoded storage values as structured data
(the codec crate is outside src/; the spec treats it as an opaque injective
encode/decode pair).  `u128` is the minimal-bytes uint encoding used for FVM
narrow values, `h256` the 32-byte string encoding used for FVM dword values,
and `bytes` the byte-string encoding used for AVM values. -/
inductive SVal
  | u128 (n : Nat)
  | h256 (n : Nat)
  | bytes (b : List Nat)
deriving DecidableEq, Repr

/-- Modelled from the spec: 256-bit blake2b digests, injectively.
`ofBytes b` is the hash of the byte string `b`; `ofTrie t` is the root
digest committing to the trie content `t` (content addressing made
literal: the digest determines the committed key/value set). -/
inductive Digest
  | ofBytes (b : List Nat)
  | ofTrie (t : List (TK × SVal))
deriving DecidableEq, Repr

/-- Digest of the empty byte string (`BLAKE2B_EMPTY`). -/
def BLAKE2B_EMPTY : Digest := .ofBytes []

/-- Digest of the empty trie (`BLAKE2B_NULL_RLP`). -/
def BLAKE2B_NULL_RLP : Digest := .ofTrie []

/-- Modelled from the spec: the blake2b hash of a byte string. -/
def blake2b (b : List Nat) : Digest := .ofBytes b

example : BLAKE2B_EMPTY ≠ BLAKE2B_NULL_RLP := by decide

/-- Trie error taxonomy (src/patricia_trie/src/lib.rs `TrieError`). -/
inductive TrieError
  | invalidStateRoot (d : Digest)
  | incompleteDatabase (d : Digest)
deriving DecidableEq, Repr

/-- Content of a storage sub-trie, as the key/value set it commits to. -/
abbrev TrieMap := List (TK × SVal)

/-- Value stored under a key of the sub-trie, if any. -/
def trieGet (t : TrieMap) (k : TK) : Option SVal :=
  (t.find? (fun e => e.1 == k)).map (·.2)

/-- Modelled from the spec: `TrieMut::insert` at the key/value-set level
(the concrete TrieDBMut node rewriting is not under src/): replaces any
entry at the key.  The account layer only ever inserts non-empty encoded
values, so the empty-value-means-remove rule never fires here. -/
def trieInsert (t : TrieMap) (k : TK) (v : SVal) : TrieMap :=
  (k, v) :: t.filter (fun e => !(e.1 == k))

/-- Modelled from the spec: `TrieMut::remove` at the key/value-set level. -/
def trieRemove (t : TrieMap) (k : TK) : TrieMap :=
  t.filter (fun e => !(e.1 == k))

/-- Modelled from the spec: the root digest of a trie with content `t`
(the digest of the empty content is `BLAKE2B_NULL_RLP` definitionally). -/
def trieRoot (t : TrieMap) : Digest := .ofTrie t

/-- The content-addressed byte store (`HashStore`, consumed interface):
`get(digest) -> Option<bytes>` / `emplace(digest, bytes)`.  Trie commits
record the new root's node bytes under the new root digest (the node bytes
themselves are abstracted as `[]`: only membership is observable here);
`commit_code` records code bytes under the code hash. -/
abbrev HashStore := List (Digest × List Nat)

/-- `HashStore::get`. -/
def storeGet (db : HashStore) (h : Digest) : Option (List Nat) :=
  (db.find? (fun e => e.1 == h)).map (·.2)

/-- `HashStore::emplace`. -/
def storeEmplace (db : HashStore) (h : Digest) (b : List Nat) : HashStore :=
  (h, b) :: db.filter (fun e => !(e.1 == h))

/-- Modelled from the spec: opening a trie at a root digest, as done by
`SecTrieDB::new` and `TrieFactory::from_existing` (the concrete reader and
writer implementations are not under src/).  The well-known empty digest
yields the empty trie; any other root must be present in the store (else
`InvalidStateRoot`) and yields the content it commits to. -/
def trieOpen (db : HashStore) (r : Digest) : Except TrieError TrieMap :=
  if r = BLAKE2B_NULL_RLP then .ok []
  else
    match r with
    | .ofTrie t => if (storeGet db r).isSome then .ok t else .error (.invalidStateRoot r)
    | .ofBytes _ => .error (.invalidStateRoot r)

/-- Modelled from the spec: `rlp::decode::<U128>` — succeeds exactly on the
minimal-bytes uint encoding of a 128-bit value; `none` models the decode
panic on a wrongly-shaped stored entry. -/
def decodeU128 : SVal → Option Nat
  | .u128 n => some n
  | _ => none

/-- Modelled from the spec: `rlp::decode::<U256>` — both a minimal uint
encoding and a 32-byte string decode numerically. -/
def decodeU256 : SVal → Option Nat
  | .u128 n => some n
  | .h256 n => some n
  | _ => none

/-- Modelled from the spec: `rlp::decode::<Vec<u8>>` — a byte-string item. -/
def decodeBytes : SVal → Option (List Nat)
  | .bytes b => some b
  | _ => none

/-- Capacity of the per-account storage read caches (`STORAGE_CACHE_ITEMS`). -/
def STORAGE_CACHE_ITEMS : Nat := 8192

/-- Bounded LRU map (external `lru_cache` crate, modelled from its
documented behaviour): entries are kept most-recent first; an insert
promotes the key to the front and evicts the least-recently-used entry
beyond capacity; a hit through `get_mut` promotes. -/
structure LruCache (K V : Type) where
  capacity : Nat
  entries : List (K × V)
deriving DecidableEq, Repr

/-- Pure lookup in the cache (value of the first entry at the key). -/
def LruCache.find {K V : Type} [DecidableEq K] (c : LruCache K V) (k : K) : Option V :=
  (c.entries.find? (fun e => e.1 == k)).map (·.2)

/-- `LruCache::insert`: promote to front, drop any older entry at the key,
evict beyond capacity. -/
def LruCache.insert {K V : Type} [DecidableEq K] (c : LruCache K V) (k : K) (v : V) :
    LruCache K V :=
  { c with entries := ((k, v) :: c.entries.filter (fun e => !(e.1 == k))).take c.capacity }

/-- `LruCache::get_mut`: on a hit the entry is promoted to the front; on a
miss the cache is unchanged. -/
def LruCache.getMut {K V : Type} [DecidableEq K] (c : LruCache K V) (k : K) :
    Option V × LruCache K V :=
  match c.find k with
  | some v => (some v, { c with entries := (k, v) :: c.entries.filter (fun e => !(e.1 == k)) })
  | none => (none, c)

/-- A freshly constructed storage cache (`LruCache::new(STORAGE_CACHE_ITEMS)`). -/
def newStorageCache (K V : Type) : LruCache K V := ⟨STORAGE_CACHE_ITEMS, []⟩

/-- Lookup in a `HashMap` modelled as an association list (pending
`storage_changes`; keys are unique in the real map). -/
def assocGet {K V : Type} [DecidableEq K] (m : List (K × V)) (k : K) : Option V :=
  (m.find? (fun e => e.1 == k)).map (·.2)

/-- `HashMap::insert` (replace any entry at the key). -/
def assocInsert {K V : Type} [DecidableEq K] (m : List (K × V)) (k : K) (v : V) :
    List (K × V) :=
  (k, v) :: m.filter (fun e => !(e.1 == k))

/-- `BasicAccount`: the serialized 4-field account record. -/
structure BasicAccount where
  nonce : Nat
  balance : Nat
  storage_root : Digest
  code_hash : Digest
deriving DecidableEq, Repr

/-- The RLP byte image produced by `Account::rlp()`: exactly the 4-field
BasicAccount list, modelled injectively (opaque codec per the spec). -/
inductive RlpBytes
  | encBasic (b : BasicAccount)
deriving DecidableEq, Repr

/-- The fixed-width ("FVM") account variant (accounts.rs `FVMAccount`).
Narrow storage maps H128 keys to H128 values, dword storage maps H128 keys
to H256 values; both modelled as Nat. -/
structure FVMAccount where
  balance : Nat
  nonce : Nat
  storage_root : Digest
  storage_cache : LruCache Nat Nat
  storage_changes : List (Nat × Nat)
  storage_cache_dword : LruCache Nat Nat
  storage_changes_dword : List (Nat × Nat)
  code_hash : Digest
  code_size : Option Nat
  code_cache : List Nat
  code_filth : Filth
  address_hash : Option Digest
  empty_but_commit : Bool
deriving DecidableEq, Repr

/-- The variable-length ("AVM") account variant (accounts.rs `AVMAccount`). -/
structure AVMAccount where
  balance : Nat
  nonce : Nat
  storage_root : Digest
  storage_cache : LruCache (List Nat) (List Nat)
  storage_changes : List (List Nat × List Nat)
  code_hash : Digest
  code_size : Option Nat
  code_cache : List Nat
  code_filth : Filth
  address_hash : Option Digest
deriving DecidableEq, Repr

/-- `FVMAccount::new_contract`. -/
def FVMAccount.new_contract (balance nonce : Nat) : FVMAccount where
  balance := balance
  nonce := nonce
  storage_root := BLAKE2B_NULL_RLP
  storage_cache := newStorageCache Nat Nat
  storage_changes := []
  storage_cache_dword := newStorageCache Nat Nat
  storage_changes_dword := []
  code_hash := BLAKE2B_EMPTY
  code_size := none
  code_cache := []
  code_filth := .Clean
  address_hash := none
  empty_but_commit := false

/-- `FVMAccount::new_basic`. -/
def FVMAccount.new_basic (balance nonce : Nat) : FVMAccount :=
  { FVMAccount.new_contract balance nonce with code_size := some 0 }

/-- `AVMAccount::new_basic`. -/
def AVMAccount.new_basic (balance nonce : Nat) : AVMAccount where
  balance := balance
  nonce := nonce
  storage_root := BLAKE2B_NULL_RLP
  storage_cache := newStorageCache (List Nat) (List Nat)
  storage_changes := []
  code_hash := BLAKE2B_EMPTY
  code_size := some 0
  code_cache := []
  code_filth := .Clean
  address_hash := none

/-- `FVMAccount::storage_is_clean`. -/
def FVMAccount.storage_is_clean (a : FVMAccount) : Bool :=
  a.storage_changes.isEmpty && a.storage_changes_dword.isEmpty

/-- `AVMAccount::storage_is_clean`. -/
def AVMAccount.storage_is_clean (a : AVMAccount) : Bool :=
  a.storage_changes.isEmpty

/-- `From<BasicAccount> for FVMAccount`: reconstitute with empty caches. -/
def FVMAccount.fromBasic (b : BasicAccount) : FVMAccount where
  balance := b.balance
  nonce := b.nonce
  storage_root := b.storage_root
  storage_cache := newStorageCache Nat Nat
  storage_changes := []
  storage_cache_dword := newStorageCache Nat Nat
  storage_changes_dword := []
  code_hash := b.code_hash
  code_size := none
  code_cache := []
  code_filth := .Clean
  address_hash := none
  empty_but_commit := false

/-- `From<BasicAccount> for AVMAccount`: reconstitute with empty caches. -/
def AVMAccount.fromBasic (b : BasicAccount) : AVMAccount where
  balance := b.balance
  nonce := b.nonce
  storage_root := b.storage_root
  storage_cache := newStorageCache (List Nat) (List Nat)
  storage_changes := []
  code_hash := b.code_hash
  code_size := none
  code_cache := []
  code_filth := .Clean
  address_hash := none

/-- `Account::rlp` (impl_account macro): stream the 4 BasicAccount fields. -/
def FVMAccount.rlp (a : FVMAccount) : RlpBytes :=
  .encBasic ⟨a.nonce, a.balance, a.storage_root, a.code_hash⟩

/-- `Account::from_rlp` (impl_account macro): decode a BasicAccount and
convert. -/
def FVMAccount.from_rlp (r : RlpBytes) : FVMAccount :=
  match r with
  | .encBasic b => FVMAccount.fromBasic b

/-- `Account::rlp` for the AVM variant. -/
def AVMAccount.rlp (a : AVMAccount) : RlpBytes :=
  .encBasic ⟨a.nonce, a.balance, a.storage_root, a.code_hash⟩

/-- `Account::from_rlp` for the AVM variant. -/
def AVMAccount.from_rlp (r : RlpBytes) : AVMAccount :=
  match r with
  | .encBasic b => AVMAccount.fromBasic b

/-- `Account::is_null` (impl_account macro). -/
def FVMAccount.is_null (a : FVMAccount) : Bool :=
  (a.balance == 0) && (a.nonce == 0) && (a.code_hash == BLAKE2B_EMPTY)

/-- `Account::is_null` for the AVM variant. -/
def AVMAccount.is_null (a : AVMAccount) : Bool :=
  (a.balance == 0) && (a.nonce == 0) && (a.code_hash == BLAKE2B_EMPTY)

/-- `Account::is_empty` (impl_account macro): asserts that storage is
clean (the assertion failure is modelled as `none`), then tests
`is_null && storage_root == BLAKE2B_NULL_RLP`. -/
def FVMAccount.is_empty (a : FVMAccount) : Option Bool :=
  if a.storage_is_clean then some (a.is_null && (a.storage_root == BLAKE2B_NULL_RLP))
  else none

/-- `Account::is_empty` for the AVM variant. -/
def AVMAccount.is_empty (a : AVMAccount) : Option Bool :=
  if a.storage_is_clean then some (a.is_null && (a.storage_root == BLAKE2B_NULL_RLP))
  else none

/-- `Account::storage_root` (impl_account macro): `Some(&root)` when the
pending-change maps are empty, `None` otherwise. -/
def FVMAccount.storage_root_opt (a : FVMAccount) : Option Digest :=
  if a.storage_is_clean then some a.storage_root else none

/-- `Account::storage_root` for the AVM variant. -/
def AVMAccount.storage_root_opt (a : AVMAccount) : Option Digest :=
  if a.storage_is_clean then some a.storage_root else none

/-- `Account::sub_balance` (impl_account macro): `assert!(balance >= x)`
(failure modelled as `none`), then subtract. -/
def FVMAccount.sub_balance (a : FVMAccount) (x : Nat) : Option FVMAccount :=
  if x ≤ a.balance then some { a with balance := a.balance - x } else none

/-- `Account::sub_balance` for the AVM variant. -/
def AVMAccount.sub_balance (a : AVMAccount) (x : Nat) : Option AVMAccount :=
  if x ≤ a.balance then some { a with balance := a.balance - x } else none

/-- `Account::commit_code` (impl_account macro): case analysis on
(dirty, cache empty). -/
def FVMAccount.commit_code (a : FVMAccount) (db : HashStore) : FVMAccount × HashStore :=
  match a.code_filth == Filth.Dirty, a.code_cache.isEmpty with
  | true, true => ({ a with code_size := some 0, code_filth := .Clean }, db)
  | true, false =>
    ({ a with code_size := some a.code_cache.length, code_filth := .Clean },
     storeEmplace db a.code_hash a.code_cache)
  | false, _ => (a, db)

/-- `Account::commit_code` for the AVM variant. -/
def AVMAccount.commit_code (a : AVMAccount) (db : HashStore) : AVMAccount × HashStore :=
  match a.code_filth == Filth.Dirty, a.code_cache.isEmpty with
  | true, true => ({ a with code_size := some 0, code_filth := .Clean }, db)
  | true, false =>
    ({ a with code_size := some a.code_cache.length, code_filth := .Clean },
     storeEmplace db a.code_hash a.code_cache)
  | false, _ => (a, db)

/-- `Account::is_cached` (impl_account macro). -/
def FVMAccount.is_cached (a : FVMAccount) : Bool :=
  !a.code_cache.isEmpty || (a.code_cache.isEmpty && (a.code_hash == BLAKE2B_EMPTY))

/-- `Account::is_cached` for the AVM variant. -/
def AVMAccount.is_cached (a : AVMAccount) : Bool :=
  !a.code_cache.isEmpty || (a.code_cache.isEmpty && (a.code_hash == BLAKE2B_EMPTY))

/-- `Account::cache_code` (impl_account macro): a short-circuit on
`is_cached`, otherwise a store lookup under `code_hash`, populating
`code_cache`/`code_size` on a hit and reporting `None` on a miss. -/
def FVMAccount.cache_code (a : FVMAccount) (db : HashStore) :
    Option (List Nat) × FVMAccount :=
  if a.is_cached then (some a.code_cache, a)
  else
    match storeGet db a.code_hash with
    | some x => (some x, { a with code_size := some x.length, code_cache := x })
    | none => (none, a)

/-- `Account::cache_code` for the AVM variant. -/
def AVMAccount.cache_code (a : AVMAccount) (db : HashStore) :
    Option (List Nat) × AVMAccount :=
  if a.is_cached then (some a.code_cache, a)
  else
    match storeGet db a.code_hash with
    | some x => (some x, { a with code_size := some x.length, code_cache := x })
    | none => (none, a)

/-- `AccountStorage::set_storage` for FVM narrow storage. -/
def FVMAccount.set_storage (a : FVMAccount) (k v : Nat) : FVMAccount :=
  { a with storage_changes := assocInsert a.storage_changes k v }

/-- `AccountStorage::set_storage` for FVM dword storage. -/
def FVMAccount.set_storage_dword (a : FVMAccount) (k v : Nat) : FVMAccount :=
  { a with storage_changes_dword := assocInsert a.storage_changes_dword k v }

/-- `AccountStorage::set_storage` for the AVM variant. -/
def AVMAccount.set_storage (a : AVMAccount) (k v : List Nat) : AVMAccount :=
  { a with storage_changes := assocInsert a.storage_changes k v }

/-- `AccountStorage::cached_storage_at` for FVM narrow storage: pending
change first, then LRU cache (a hit promotes through `get_mut`). -/
def FVMAccount.cached_storage_at (a : FVMAccount) (k : Nat) : Option Nat × FVMAccount :=
  match assocGet a.storage_changes k with
  | some v => (some v, a)
  | none =>
    match a.storage_cache.getMut k with
    | (some v, c) => (some v, { a with storage_cache := c })
    | (none, c) => (none, { a with storage_cache := c })

/-- `AccountStorage::cached_storage_at` for FVM dword storage. -/
def FVMAccount.cached_storage_at_dword (a : FVMAccount) (k : Nat) :
    Option Nat × FVMAccount :=
  match assocGet a.storage_changes_dword k with
  | some v => (some v, a)
  | none =>
    match a.storage_cache_dword.getMut k with
    | (some v, c) => (some v, { a with storage_cache_dword := c })
    | (none, c) => (none, { a with storage_cache_dword := c })

/-- `AccountStorage::cached_storage_at` for the AVM variant. -/
def AVMAccount.cached_storage_at (a : AVMAccount) (k : List Nat) :
    Option (List Nat) × AVMAccount :=
  match assocGet a.storage_changes k with
  | some v => (some v, a)
  | none =>
    match a.storage_cache.getMut k with
    | (some v, c) => (some v, { a with storage_cache := c })
    | (none, c) => (none, { a with storage_cache := c })

/-- `AccountStorage::storage_at` for FVM narrow storage: cached value if
any, else a Secure-trie read at `storage_root` decoding absence as `U128`
zero and populating the cache.  The outer `Option` is the panic channel
of `rlp::decode` on a wrongly-shaped stored entry; the inner `Except`
carries the trie errors the source propagates with `?`. -/
def FVMAccount.storage_at (a : FVMAccount) (db : HashStore) (k : Nat) :
    Option (Except TrieError (Nat × FVMAccount)) :=
  match a.cached_storage_at k with
  | (some v, a1) => some (.ok (v, a1))
  | (none, a1) =>
    match trieOpen db a.storage_root with
    | .error e => some (.error e)
    | .ok t =>
      match trieGet t (.fvm k) with
      | none => some (.ok (0, { a1 with storage_cache := a1.storage_cache.insert k 0 }))
      | some sv =>
        match decodeU128 sv with
        | none => none
        | some n =>
          some (.ok (n, { a1 with storage_cache := a1.storage_cache.insert k n }))

/-- `AccountStorage::storage_at` for FVM dword storage (decodes as U256,
populates the dword cache). -/
def FVMAccount.storage_at_dword (a : FVMAccount) (db : HashStore) (k : Nat) :
    Option (Except TrieError (Nat × FVMAccount)) :=
  match a.cached_storage_at_dword k with
  | (some v, a1) => some (.ok (v, a1))
  | (none, a1) =>
    match trieOpen db a.storage_root with
    | .error e => some (.error e)
    | .ok t =>
      match trieGet t (.fvm k) with
      | none =>
        some (.ok (0, { a1 with storage_cache_dword := a1.storage_cache_dword.insert k 0 }))
      | some sv =>
        match decodeU256 sv with
        | none => none
        | some n =>
          some (.ok (n, { a1 with storage_cache_dword := a1.storage_cache_dword.insert k n }))

/-- `AccountStorage::storage_at` for the AVM variant (decodes as a byte
string, absence decoded as the empty byte string). -/
def AVMAccount.storage_at (a : AVMAccount) (db : HashStore) (k : List Nat) :
    Option (Except TrieError (List Nat × AVMAccount)) :=
  match a.cached_storage_at k with
  | (some v, a1) => some (.ok (v, a1))
  | (none, a1) =>
    match trieOpen db a.storage_root with
    | .error e => some (.error e)
    | .ok t =>
      match trieGet t (.avm k) with
      | none => some (.ok ([], { a1 with storage_cache := a1.storage_cache.insert k [] }))
      | some sv =>
        match decodeBytes sv with
        | none => none
        | some b =>
          some (.ok (b, { a1 with storage_cache := a1.storage_cache.insert k b }))

/-- One drained pending entry applied to the sub-trie: remove on the zero
value, insert the encoded form otherwise (the loop body of
`commit_storage`). -/
def commitTrieStep {K V : Type} (isZero : V → Bool) (mkKey : K → TK) (enc : V → SVal)
    (t : TrieMap) (kv : K × V) : TrieMap :=
  if isZero kv.2 then trieRemove t (mkKey kv.1) else trieInsert t (mkKey kv.1) (enc kv.2)

/-- The `commit_storage` drain loop over one pending-change map: each entry
is applied to the trie and inserted into the read cache. -/
def commitFold {K V : Type} [DecidableEq K] (isZero : V → Bool) (mkKey : K → TK)
    (enc : V → SVal) (l : List (K × V)) (t : TrieMap) (c : LruCache K V) :
    TrieMap × LruCache K V :=
  l.foldl (fun acc kv => (commitTrieStep isZero mkKey enc acc.1 kv, acc.2.insert kv.1 kv.2))
    (t, c)

/-- Zero test used by the FVM drains (`H128::is_zero` / `H256::is_zero`). -/
def natIsZero (v : Nat) : Bool := v == 0

/-- Zero test used by the AVM drain: the byte-scan of the loop in
`AVMAccount::commit_storage` (every byte equal to 0, vacuously true of the
empty byte string). -/
def bytesIsZero (v : List Nat) : Bool := v.all (fun b => b == 0)

/-- `FVMAccount::commit_storage`: open the sub-trie at `storage_root`
through the factory, drain the narrow map and then the dword map into it
(removing zero values, inserting encoded non-zero values, caching every
applied pair), then adopt the new root.  The new root's node bytes are
recorded in the store when anything was rewritten. -/
def FVMAccount.commit_storage (a : FVMAccount) (db : HashStore) :
    Except TrieError (FVMAccount × HashStore) :=
  match trieOpen db a.storage_root with
  | .error e => .error e
  | .ok t0 =>
    let p1 := commitFold natIsZero TK.fvm SVal.u128 a.storage_changes t0 a.storage_cache
    let p2 :=
      commitFold natIsZero TK.fvm SVal.h256 a.storage_changes_dword p1.1 a.storage_cache_dword
    let newRoot := trieRoot p2.1
    let db2 :=
      if a.storage_changes.isEmpty && a.storage_changes_dword.isEmpty then db
      else storeEmplace db newRoot []
    .ok ({ a with
            storage_root := newRoot
            storage_changes := []
            storage_cache := p1.2
            storage_changes_dword := []
            storage_cache_dword := p2.2 },
         db2)

/-- `AVMAccount::commit_storage`: as for FVM but over the single
byte-keyed map with the byte-scan zero test. -/
def AVMAccount.commit_storage (a : AVMAccount) (db : HashStore) :
    Except TrieError (AVMAccount × HashStore) :=
  match trieOpen db a.storage_root with
  | .error e => .error e
  | .ok t0 =>
    let p1 := commitFold bytesIsZero TK.avm SVal.bytes a.storage_changes t0 a.storage_cache
    let newRoot := trieRoot p1.1
    let db2 := if a.storage_changes.isEmpty then db else storeEmplace db newRoot []
    .ok ({ a with
            storage_root := newRoot
            storage_changes := []
            storage_cache := p1.2 },
         db2)

/-- Read-only generic trie handle (`TrieDB`): for the `is_empty` claim only
its root is relevant; the node machinery is not under src/. -/
structure TrieDB where
  root : Digest
deriving DecidableEq, Repr

/-- Read-only secure trie handle (`SecTrieDB` wraps a `TrieDB`). -/
structure SecTrieDB where
  raw : TrieDB
deriving DecidableEq, Repr

/-- Read-only fat trie handle (`FatDB` wraps a `TrieDB`). -/
structure FatDB where
  raw : TrieDB
deriving DecidableEq, Repr

/-- The `Trie` trait's provided `is_empty`: root equals the empty-trie
digest (src/patricia_trie/src/lib.rs line 157); `TrieDB` keeps the
default. -/
def TrieDB.is_empty (t : TrieDB) : Bool := t.root == BLAKE2B_NULL_RLP

/-- Modelled from the spec: `SecTrieDB::root` forwards to the wrapped raw
trie (the sectriedb module is not under src/) and `is_empty` is the trait
default. -/
def SecTrieDB.root (t : SecTrieDB) : Digest := t.raw.root

/-- Trait-default `is_empty` for the secure handle. -/
def SecTrieDB.is_empty (t : SecTrieDB) : Bool := t.root == BLAKE2B_NULL_RLP

/-- Modelled from the spec: `FatDB::root` forwards to the wrapped raw trie
(the fatdb module is not under src/) and `is_empty` is the trait default. -/
def FatDB.root (t : FatDB) : Digest := t.raw.root

/-- Trait-default `is_empty` for the fat handle. -/
def FatDB.is_empty (t : FatDB) : Bool := t.root == BLAKE2B_NULL_RLP

/-! Generic lemmas about the find/filter/take list operations underlying
the trie content model and the LRU cache. -/

theorem find_filter_of_imp {α : Type} (p q : α → Bool) (l : List α)
    (h : ∀ a, p a = true → q a = true) :
    (l.filter q).find? p = l.find? p := by
  induction l with
  | nil => rfl
  | cons a rest ih =>
    by_cases hq : q a = true
    · by_cases hp : p a = true
      · simp [List.filter, hq, List.find?, hp]
      · simp [List.filter, hq, List.find?, hp, ih]
    · have hp : p a = false := by
        cases hpa : p a with
        | false => rfl
        | true => exact absurd (h a hpa) hq
      simp [List.filter, hq, List.find?, hp, ih]

theorem trieGet_insert_self (t : TrieMap) (k : TK) (v : SVal) :
    trieGet (trieInsert t k v) k = some v := by
  simp [trieGet, trieInsert, List.find?]

theorem trieGet_insert_ne (t : TrieMap) (k k' : TK) (v : SVal) (h : k ≠ k') :
    trieGet (trieInsert t k' v) k = trieGet t k := by
  have hk : ((k', v).1 == k) = false := by simp [Ne.symm h]
  simp only [trieGet, trieInsert, List.find?, hk]
  rw [find_filter_of_imp]
  intro e he
  have : e.1 = k := by simpa using he
  simp [this, h]

theorem trieGet_remove_self (t : TrieMap) (k : TK) :
    trieGet (trieRemove t k) k = none := by
  have hfind : List.find? (fun e => e.1 == k) (List.filter (fun e => !(e.1 == k)) t)
      = none := by
    rw [List.find?_eq_none]
    intro e he
    have := List.of_mem_filter he
    simpa using this
  simp [trieGet, trieRemove, hfind]

theorem trieGet_remove_ne (t : TrieMap) (k k' : TK) (h : k ≠ k') :
    trieGet (trieRemove t k') k = trieGet t k := by
  simp only [trieGet, trieRemove]
  rw [find_filter_of_imp]
  intro e he
  have : e.1 = k := by simpa using he
  simp [this, h]

theorem commitTrieStep_get_ne {K V : Type} (isZero : V → Bool) (mkKey : K → TK)
    (enc : V → SVal) (t : TrieMap) (kv : K × V) (k : K)
    (hinj : ∀ x y, mkKey x = mkKey y → x = y) (hne : kv.1 ≠ k) :
    trieGet (commitTrieStep isZero mkKey enc t kv) (mkKey k) = trieGet t (mkKey k) := by
  have hkk : mkKey k ≠ mkKey kv.1 := fun h => hne (hinj _ _ h.symm)
  unfold commitTrieStep
  split
  · exact trieGet_remove_ne _ _ _ hkk
  · exact trieGet_insert_ne _ _ _ _ hkk

/-- The trie component of the `commit_storage` drain over one map. -/
def trieFold {K V : Type} (isZero : V → Bool) (mkKey : K → TK) (enc : V → SVal)
    (l : List (K × V)) (t : TrieMap) : TrieMap :=
  l.foldl (commitTrieStep isZero mkKey enc) t

/-- The cache component of the `commit_storage` drain over one map. -/
def cacheFold {K V : Type} [DecidableEq K] (l : List (K × V)) (c : LruCache K V) :
    LruCache K V :=
  l.foldl (fun c kv => c.insert kv.1 kv.2) c

theorem commitFold_eq_pair {K V : Type} [DecidableEq K] (isZero : V → Bool)
    (mkKey : K → TK) (enc : V → SVal) (l : List (K × V)) (t : TrieMap)
    (c : LruCache K V) :
    commitFold isZero mkKey enc l t c =
      (trieFold isZero mkKey enc l t, cacheFold l c) := by
  induction l generalizing t c with
  | nil => rfl
  | cons kv rest ih => simpa [commitFold, trieFold, cacheFold] using ih _ _

theorem trieFold_get_of_notMem {K V : Type} (isZero : V → Bool) (mkKey : K → TK)
    (enc : V → SVal) (l : List (K × V)) (t : TrieMap) (k : K)
    (hinj : ∀ x y, mkKey x = mkKey y → x = y) (hnot : k ∉ l.map Prod.fst) :
    trieGet (trieFold isZero mkKey enc l t) (mkKey k) = trieGet t (mkKey k) := by
  induction l generalizing t with
  | nil => rfl
  | cons kv rest ih =>
    simp only [List.map_cons, List.mem_cons, not_or] at hnot
    rw [trieFold, List.foldl_cons, ← trieFold,
      ih _ hnot.2, commitTrieStep_get_ne _ _ _ _ _ _ hinj (fun h => hnot.1 h.symm)]

theorem trieFold_get_of_mem {K V : Type} (isZero : V → Bool) (mkKey : K → TK)
    (enc : V → SVal) (l : List (K × V)) (t : TrieMap) (k : K) (v : V)
    (hinj : ∀ x y, mkKey x = mkKey y → x = y) (hmem : (k, v) ∈ l)
    (hnd : (l.map Prod.fst).Nodup) :
    trieGet (trieFold isZero mkKey enc l t) (mkKey k) =
      if isZero v then none else some (enc v) := by
  obtain ⟨s, t2, rfl⟩ := List.append_of_mem hmem
  have hnot : k ∉ t2.map Prod.fst := by
    have hmid : (k :: t2.map Prod.fst).Nodup := by
      have h2 := hnd
      rw [List.map_append, List.nodup_append] at h2
      simpa using h2.2.1
    exact (List.nodup_cons.mp hmid).1
  rw [trieFold, List.foldl_append, List.foldl_cons, ← trieFold, ← trieFold,
    trieFold_get_of_notMem _ _ _ _ _ _ hinj hnot]
  unfold commitTrieStep
  split
  · exact trieGet_remove_self _ _
  · exact trieGet_insert_self _ _ _
/-- First occurrence of a key in an association list, with its index:
the measure by which an entry survives LRU eviction. -/
def findIdxVal {K V : Type} [DecidableEq K] : List (K × V) → K → Option (Nat × V)
  | [], _ => none
  | (k1, v) :: rest, k =>
    if k1 = k then some (0, v)
    else (findIdxVal rest k).map (fun p => (p.1 + 1, p.2))

theorem lru_find_eq_findIdxVal {K V : Type} [DecidableEq K] (c : LruCache K V) (k : K) :
    c.find k = (findIdxVal c.entries k).map (·.2) := by
  show (c.entries.find? (fun e => e.1 == k)).map (·.2) = _
  induction c.entries with
  | nil => rfl
  | cons e rest ih =>
    obtain ⟨k1, v⟩ := e
    by_cases h : k1 = k
    · simp [findIdxVal, h, List.find?]
    · rw [List.find?_cons_of_neg _ (by simp [h]), ih]
      simp only [findIdxVal, if_neg h, Option.map_map]
      cases findIdxVal rest k <;> rfl

theorem findIdxVal_take {K V : Type} [DecidableEq K] (l : List (K × V)) (k : K)
    (i : Nat) (v : V) (n : Nat) (h : findIdxVal l k = some (i, v)) (hn : i < n) :
    findIdxVal (l.take n) k = some (i, v) := by
  induction l generalizing i n with
  | nil => simp [findIdxVal] at h
  | cons e rest ih =>
    obtain ⟨k1, v1⟩ := e
    cases n with
    | zero => omega
    | succ n =>
      rw [List.take_succ_cons]
      by_cases hk : k1 = k
      · simp only [findIdxVal, if_pos hk] at h ⊢
        exact h
      · simp only [findIdxVal, if_neg hk, Option.map_eq_some'] at h
        obtain ⟨⟨j, w⟩, hj, he⟩ := h
        simp only [Prod.mk.injEq] at he
        obtain ⟨hji, hwv⟩ := he
        subst hwv
        have hjn : j < n := by omega
        simp only [findIdxVal, if_neg hk, ih j n hj hjn, Option.map_some]
        simp [hji]

theorem findIdxVal_filter_ne {K V : Type} [DecidableEq K] (l : List (K × V)) (k k' : K)
    (hne : k ≠ k') (i : Nat) (v : V) (h : findIdxVal l k = some (i, v)) :
    ∃ j, j ≤ i ∧ findIdxVal (l.filter (fun e => !(e.1 == k'))) k = some (j, v) := by
  induction l generalizing i with
  | nil => simp [findIdxVal] at h
  | cons e rest ih =>
    obtain ⟨k1, v1⟩ := e
    rw [List.filter_cons]
    by_cases hk : k1 = k
    · simp only [findIdxVal, if_pos hk, Option.some.injEq, Prod.mk.injEq] at h
      obtain ⟨hi, hv⟩ := h
      refine ⟨0, by omega, ?_⟩
      have hcond : (!((k1, v1).1 == k')) = true := by simp [hk, hne]
      simp [hcond, findIdxVal, hk, hv, hne]
    · simp only [findIdxVal, if_neg hk, Option.map_eq_some'] at h
      obtain ⟨⟨j0, w⟩, hj0, he⟩ := h
      simp only [Prod.mk.injEq] at he
      obtain ⟨hji, hwv⟩ := he
      subst hwv
      obtain ⟨j, hjle, hj⟩ := ih j0 hj0
      by_cases hk' : k1 = k'
      · have hcond : (!((k1, v1).1 == k')) = false := by simp [hk']
        refine ⟨j, by omega, ?_⟩
        simp only [hcond, Bool.false_eq_true, if_false]
        exact hj
      · have hcond : (!((k1, v1).1 == k')) = true := by simp [hk']
        refine ⟨j + 1, by omega, ?_⟩
        simp [hcond, findIdxVal, hk, hj, hji]

theorem lru_insert_capacity {K V : Type} [DecidableEq K] (c : LruCache K V) (k : K)
    (v : V) : (c.insert k v).capacity = c.capacity := rfl

theorem findIdxVal_insert_self {K V : Type} [DecidableEq K] (c : LruCache K V)
    (k : K) (v : V) (hcap : 0 < c.capacity) :
    findIdxVal (c.insert k v).entries k = some (0, v) := by
  obtain ⟨n, hn⟩ : ∃ n, c.capacity = n + 1 := ⟨c.capacity - 1, by omega⟩
  simp [LruCache.insert, hn, List.take_succ_cons, findIdxVal]

theorem findIdxVal_insert_ne {K V : Type} [DecidableEq K] (c : LruCache K V)
    (k k' : K) (v' : V) (hne : k ≠ k') (i : Nat) (v : V)
    (h : findIdxVal c.entries k = some (i, v)) (hcap : i + 1 < c.capacity) :
    ∃ j, j ≤ i + 1 ∧ findIdxVal (c.insert k' v').entries k = some (j, v) := by
  obtain ⟨j0, hj0le, hj0⟩ := findIdxVal_filter_ne c.entries k k' hne i v h
  refine ⟨j0 + 1, by omega, ?_⟩
  have hcons : findIdxVal ((k', v') :: c.entries.filter (fun e => !(e.1 == k'))) k
      = some (j0 + 1, v) := by
    simp [findIdxVal, Ne.symm hne, hj0]
  exact findIdxVal_take _ _ _ _ _ hcons (by omega)

theorem cacheFold_capacity {K V : Type} [DecidableEq K] (l : List (K × V))
    (c : LruCache K V) : (cacheFold l c).capacity = c.capacity := by
  induction l generalizing c with
  | nil => rfl
  | cons kv rest ih => simpa [cacheFold] using ih (c.insert kv.1 kv.2)

theorem cacheFold_find_of_notMem {K V : Type} [DecidableEq K] (l : List (K × V))
    (c : LruCache K V) (k : K) (v : V) (i : Nat) (hnot : k ∉ l.map Prod.fst)
    (h : findIdxVal c.entries k = some (i, v)) (hcap : i + l.length < c.capacity) :
    (cacheFold l c).find k = some v := by
  induction l generalizing c i with
  | nil =>
    rw [show cacheFold [] c = c from rfl, lru_find_eq_findIdxVal, h]
    rfl
  | cons kv rest ih =>
    simp only [List.map_cons, List.mem_cons, not_or] at hnot
    simp only [List.length_cons] at hcap
    obtain ⟨j, hjle, hj⟩ := findIdxVal_insert_ne c k kv.1 kv.2 hnot.1 i v h (by omega)
    rw [cacheFold, List.foldl_cons, ← cacheFold]
    refine ih (c.insert kv.1 kv.2) j hnot.2 hj ?_
    rw [lru_insert_capacity]
    omega

theorem cacheFold_find_of_mem {K V : Type} [DecidableEq K] (l : List (K × V))
    (c : LruCache K V) (k : K) (v : V) (hmem : (k, v) ∈ l)
    (hnd : (l.map Prod.fst).Nodup) (hlen : l.length ≤ c.capacity) :
    (cacheFold l c).find k = some v := by
  obtain ⟨s, t2, rfl⟩ := List.append_of_mem hmem
  have hnot : k ∉ t2.map Prod.fst := by
    have hmid : (k :: t2.map Prod.fst).Nodup := by
      have h2 := hnd
      rw [List.map_append, List.nodup_append] at h2
      simpa using h2.2.1
    exact (List.nodup_cons.mp hmid).1
  rw [cacheFold, List.foldl_append, List.foldl_cons, ← cacheFold, ← cacheFold]
  have hlen2 : s.length + (t2.length + 1) ≤ c.capacity := by
    simpa [List.length_append, Nat.add_comm, Nat.add_assoc, Nat.add_left_comm] using hlen
  have hcap0 : 0 < (cacheFold s c).capacity := by
    rw [cacheFold_capacity]
    omega
  apply cacheFold_find_of_notMem t2 _ k v 0 hnot
    (findIdxVal_insert_self _ _ _ hcap0)
  rw [lru_insert_capacity, cacheFold_capacity]
  omega

theorem storeGet_emplace_self (db : HashStore) (h : Digest) (b : List Nat) :
    storeGet (storeEmplace db h b) h = some b := by
  simp [storeGet, storeEmplace, List.find?]

theorem trieRoot_of_open (db : HashStore) (r : Digest) (t : TrieMap)
    (h : trieOpen db r = .ok t) : trieRoot t = r := by
  unfold trieOpen at h
  by_cases hr : r = BLAKE2B_NULL_RLP
  · rw [if_pos hr] at h
    cases h
    exact hr.symm
  · rw [if_neg hr] at h
    cases r with
    | ofBytes b => cases h
    | ofTrie t1 =>
      by_cases hs : (storeGet db (Digest.ofTrie t1)).isSome = true
      · simp only [hs, if_true] at h
        cases h
        rfl
      · simp [hs] at h

theorem trieOpen_emplace_self (db : HashStore) (t : TrieMap) (b : List Nat) :
    trieOpen (storeEmplace db (trieRoot t) b) (trieRoot t) = .ok t := by
  by_cases ht : t = []
  · subst ht
    rfl
  · have hne : trieRoot t ≠ BLAKE2B_NULL_RLP := by
      simp [trieRoot, BLAKE2B_NULL_RLP, ht]
    unfold trieOpen
    rw [if_neg hne]
    simp [trieRoot, storeGet_emplace_self]

theorem fvm_commit_storage_eq (a : FVMAccount) (db : HashStore) (t0 : TrieMap)
    (hop : trieOpen db a.storage_root = .ok t0) :
    a.commit_storage db = .ok
      ({ a with
          storage_root := trieRoot (trieFold natIsZero TK.fvm SVal.h256
            a.storage_changes_dword
            (trieFold natIsZero TK.fvm SVal.u128 a.storage_changes t0))
          storage_changes := []
          storage_cache := cacheFold a.storage_changes a.storage_cache
          storage_changes_dword := []
          storage_cache_dword := cacheFold a.storage_changes_dword a.storage_cache_dword },
        if a.storage_changes.isEmpty && a.storage_changes_dword.isEmpty then db
        else
          storeEmplace db
            (trieRoot (trieFold natIsZero TK.fvm SVal.h256 a.storage_changes_dword
              (trieFold natIsZero TK.fvm SVal.u128 a.storage_changes t0))) []) := by
  simp [FVMAccount.commit_storage, hop, commitFold_eq_pair]

theorem fvm_commit_storage_err (a : FVMAccount) (db : HashStore) (e : TrieError)
    (hop : trieOpen db a.storage_root = .error e) :
    a.commit_storage db = .error e := by
  simp [FVMAccount.commit_storage, hop]

theorem avm_commit_storage_eq (a : AVMAccount) (db : HashStore) (t0 : TrieMap)
    (hop : trieOpen db a.storage_root = .ok t0) :
    a.commit_storage db = .ok
      ({ a with
          storage_root := trieRoot (trieFold bytesIsZero TK.avm SVal.bytes
            a.storage_changes t0)
          storage_changes := []
          storage_cache := cacheFold a.storage_changes a.storage_cache },
        if a.storage_changes.isEmpty then db
        else
          storeEmplace db
            (trieRoot (trieFold bytesIsZero TK.avm SVal.bytes a.storage_changes t0)) []) := by
  simp [AVMAccount.commit_storage, hop, commitFold_eq_pair]

theorem avm_commit_storage_err (a : AVMAccount) (db : HashStore) (e : TrieError)
    (hop : trieOpen db a.storage_root = .error e) :
    a.commit_storage db = .error e := by
  simp [AVMAccount.commit_storage, hop]

theorem fvm_commit_noop (a : FVMAccount) (db : HashStore) (t0 : TrieMap)
    (h1 : a.storage_changes = []) (h2 : a.storage_changes_dword = [])
    (hop : trieOpen db a.storage_root = .ok t0) :
    a.commit_storage db = .ok (a, db) := by
  have hroot := trieRoot_of_open db a.storage_root t0 hop
  rw [fvm_commit_storage_eq a db t0 hop]
  obtain ⟨bal, non, rt, sc, sch, scd, schd, ch, cs, cc, cf, ah, ebc⟩ := a
  simp only at h1 h2 hroot
  subst h1
  subst h2
  simp [trieFold, cacheFold, hroot]

theorem avm_commit_noop (a : AVMAccount) (db : HashStore) (t0 : TrieMap)
    (h1 : a.storage_changes = [])
    (hop : trieOpen db a.storage_root = .ok t0) :
    a.commit_storage db = .ok (a, db) := by
  have hroot := trieRoot_of_open db a.storage_root t0 hop
  rw [avm_commit_storage_eq a db t0 hop]
  obtain ⟨bal, non, rt, sc, sch, ch, cs, cc, cf, ah⟩ := a
  simp only at h1 hroot
  subst h1
  simp [trieFold, cacheFold, hroot]

/-- `TrieKinds`: the polymorphic handle produced by `TrieFactory::readonly`. -/
inductive TrieKinds
  | generic (t : TrieDB)
  | secure (t : SecTrieDB)
  | fat (t : FatDB)
deriving DecidableEq, Repr

/-- `impl Trie for TrieKinds`: `root` dispatches through the wrapper macro. -/
def TrieKinds.root : TrieKinds → Digest
  | .generic t => t.root
  | .secure t => t.root
  | .fat t => t.root

/-- `impl Trie for TrieKinds`: `is_empty` dispatches through the wrapper
macro to each variant's `is_empty`. -/
def TrieKinds.is_empty : TrieKinds → Bool
  | .generic t => t.is_empty
  | .secure t => t.is_empty
  | .fat t => t.is_empty




/-! Claim theorems. -/

/-- Claim C9: for every trie handle (generic, secure, or fat), `is_empty()`
returns true if and only if `root()` equals the empty-trie digest
`BLAKE2B_NULL_RLP`. -/
theorem claim_c9_trie_is_empty_iff_null_root (tk : TrieKinds) :
    tk.is_empty = true ↔ tk.root = BLAKE2B_NULL_RLP := by
  cases tk <;>
    simp [TrieKinds.is_empty, TrieKinds.root, TrieDB.is_empty, SecTrieDB.is_empty,
      FatDB.is_empty, SecTrieDB.root, FatDB.root]

/-- Claim C4 counterexample: the claim says reading `storage_root` on an
account with non-empty `storage_changes` is an unconditional abort and not
a recoverable result.  In the source (accounts.rs lines 548-554) the
accessor returns `Option`: on the concrete dirty account below it
terminates normally with the recoverable value `none` — no abort. -/
theorem claim_c4_counterexample :
    ((FVMAccount.new_basic 0 0).set_storage 1 2).storage_root_opt = none
    ∧ ((FVMAccount.new_basic 0 0).set_storage 1 2).storage_changes ≠ [] := by
  exact ⟨rfl, by decide⟩

/-- Claim C4 (amended): `storage_root` is a valid accessor exactly when the
pending-change maps are empty, in which case it yields `Some` of the
account's current storage root; on a dirty account it returns the
recoverable value `None` rather than aborting. -/
theorem claim_c4_storage_root_accessor (fa : FVMAccount) (aa : AVMAccount) :
    (fa.storage_is_clean = true ↔
      (fa.storage_changes = [] ∧ fa.storage_changes_dword = []))
    ∧ (fa.storage_is_clean = true → fa.storage_root_opt = some fa.storage_root)
    ∧ (fa.storage_is_clean = false → fa.storage_root_opt = none)
    ∧ (aa.storage_is_clean = true ↔ aa.storage_changes = [])
    ∧ (aa.storage_is_clean = true → aa.storage_root_opt = some aa.storage_root)
    ∧ (aa.storage_is_clean = false → aa.storage_root_opt = none) := by
  refine ⟨?_, ?_, ?_, ?_, ?_, ?_⟩
  · simp [FVMAccount.storage_is_clean, List.isEmpty_iff]
  · intro h
    simp [FVMAccount.storage_root_opt, h]
  · intro h
    simp [FVMAccount.storage_root_opt, h]
  · simp [AVMAccount.storage_is_clean, List.isEmpty_iff]
  · intro h
    simp [AVMAccount.storage_root_opt, h]
  · intro h
    simp [AVMAccount.storage_root_opt, h]

/-- Claim C4 witness: the amended accessor evaluated on concrete accounts,
a clean one per variant (yielding the root) and a dirty FVM one (yielding
the recoverable `none`). -/
theorem claim_c4_storage_root_accessor_witness :
    (FVMAccount.new_basic 0 0).storage_root_opt = some BLAKE2B_NULL_RLP
    ∧ (AVMAccount.new_basic 0 0).storage_root_opt = some BLAKE2B_NULL_RLP
    ∧ ((FVMAccount.new_basic 0 0).set_storage 3 4).storage_root_opt = none := by
  refine ⟨?_, ?_, ?_⟩
  · exact (claim_c4_storage_root_accessor (FVMAccount.new_basic 0 0)
      (AVMAccount.new_basic 0 0)).2.1 rfl
  · exact (claim_c4_storage_root_accessor (FVMAccount.new_basic 0 0)
      (AVMAccount.new_basic 0 0)).2.2.2.2.1 rfl
  · exact (claim_c4_storage_root_accessor ((FVMAccount.new_basic 0 0).set_storage 3 4)
      (AVMAccount.new_basic 0 0)).2.2.1 rfl

/-- Claim C5: `is_empty()` requires clean storage (pending changes make the
call abort, modelled as `none`); under that precondition it is `some true`
iff balance = 0, nonce = 0, code_hash = BLAKE2B_EMPTY and
storage_root = BLAKE2B_NULL_RLP; it is `some true` on a fresh
`new_basic(0,0)` account and `some false` whenever nonce is positive. -/
theorem claim_c5_is_empty (fa : FVMAccount) (aa : AVMAccount) :
    (fa.storage_is_clean = false → fa.is_empty = none)
    ∧ (fa.storage_is_clean = true →
      (fa.is_empty = some true ↔
        (fa.balance = 0 ∧ fa.nonce = 0 ∧ fa.code_hash = BLAKE2B_EMPTY
          ∧ fa.storage_root = BLAKE2B_NULL_RLP)))
    ∧ (FVMAccount.new_basic 0 0).is_empty = some true
    ∧ (fa.storage_is_clean = true → 0 < fa.nonce → fa.is_empty = some false)
    ∧ (aa.storage_is_clean = false → aa.is_empty = none)
    ∧ (aa.storage_is_clean = true →
      (aa.is_empty = some true ↔
        (aa.balance = 0 ∧ aa.nonce = 0 ∧ aa.code_hash = BLAKE2B_EMPTY
          ∧ aa.storage_root = BLAKE2B_NULL_RLP)))
    ∧ (AVMAccount.new_basic 0 0).is_empty = some true
    ∧ (aa.storage_is_clean = true → 0 < aa.nonce → aa.is_empty = some false) := by
  refine ⟨?_, ?_, ?_, ?_, ?_, ?_, ?_, ?_⟩
  · intro h
    simp [FVMAccount.is_empty, h]
  · intro h
    simp [FVMAccount.is_empty, FVMAccount.is_null, h, Bool.and_eq_true, beq_iff_eq,
      and_assoc]
  · rfl
  · intro h hn
    have hn0 : fa.nonce ≠ 0 := by omega
    simp [FVMAccount.is_empty, FVMAccount.is_null, h, hn0]
  · intro h
    simp [AVMAccount.is_empty, h]
  · intro h
    simp [AVMAccount.is_empty, AVMAccount.is_null, h, Bool.and_eq_true, beq_iff_eq,
      and_assoc]
  · rfl
  · intro h hn
    have hn0 : aa.nonce ≠ 0 := by omega
    simp [AVMAccount.is_empty, AVMAccount.is_null, h, hn0]

/-- Claim C5 witness: the precondition and result clauses evaluated on
concrete accounts (a dirty account aborts; a positive nonce yields
`some false`). -/
theorem claim_c5_is_empty_witness :
    ((FVMAccount.new_basic 0 0).set_storage 2 3).is_empty = none
    ∧ (FVMAccount.new_basic 0 1).is_empty = some false
    ∧ ((AVMAccount.new_basic 0 0).set_storage [1] [2]).is_empty = none
    ∧ (AVMAccount.new_basic 0 1).is_empty = some false := by
  refine ⟨?_, ?_, ?_, ?_⟩
  · exact (claim_c5_is_empty ((FVMAccount.new_basic 0 0).set_storage 2 3)
      (AVMAccount.new_basic 0 0)).1 rfl
  · exact (claim_c5_is_empty (FVMAccount.new_basic 0 1)
      (AVMAccount.new_basic 0 0)).2.2.2.1 rfl (by decide)
  · exact (claim_c5_is_empty (FVMAccount.new_basic 0 0)
      ((AVMAccount.new_basic 0 0).set_storage [1] [2])).2.2.2.2.1 rfl
  · exact (claim_c5_is_empty (FVMAccount.new_basic 0 0)
      (AVMAccount.new_basic 0 1)).2.2.2.2.2.2.2 rfl (by decide)

/-- Claim C6: `commit_code` performs exactly the case analysis on
(code_filth, code_cache emptiness): dirty and non-empty writes the cache
bytes under `code_hash` and marks Clean; dirty and empty marks Clean with
no store write; Clean is a no-op with no store write and no field change. -/
theorem claim_c6_commit_code (fa : FVMAccount) (aa : AVMAccount) (db : HashStore) :
    (fa.code_filth = .Dirty → fa.code_cache ≠ [] →
      fa.commit_code db =
        ({ fa with code_size := some fa.code_cache.length, code_filth := .Clean },
         storeEmplace db fa.code_hash fa.code_cache))
    ∧ (fa.code_filth = .Dirty → fa.code_cache = [] →
      fa.commit_code db = ({ fa with code_size := some 0, code_filth := .Clean }, db))
    ∧ (fa.code_filth = .Clean → fa.commit_code db = (fa, db))
    ∧ (aa.code_filth = .Dirty → aa.code_cache ≠ [] →
      aa.commit_code db =
        ({ aa with code_size := some aa.code_cache.length, code_filth := .Clean },
         storeEmplace db aa.code_hash aa.code_cache))
    ∧ (aa.code_filth = .Dirty → aa.code_cache = [] →
      aa.commit_code db = ({ aa with code_size := some 0, code_filth := .Clean }, db))
    ∧ (aa.code_filth = .Clean → aa.commit_code db = (aa, db)) := by
  refine ⟨?_, ?_, ?_, ?_, ?_, ?_⟩
  · intro h hc
    cases hcc : fa.code_cache with
    | nil => exact absurd hcc hc
    | cons y ys => simp [FVMAccount.commit_code, h, hcc]
  · intro h hc
    simp [FVMAccount.commit_code, h, hc]
  · intro h
    have hb : (Filth.Clean == Filth.Dirty) = false := rfl
    simp [FVMAccount.commit_code, h, hb]
  · intro h hc
    cases hcc : aa.code_cache with
    | nil => exact absurd hcc hc
    | cons y ys => simp [AVMAccount.commit_code, h, hcc]
  · intro h hc
    simp [AVMAccount.commit_code, h, hc]
  · intro h
    have hb : (Filth.Clean == Filth.Dirty) = false := rfl
    simp [AVMAccount.commit_code, h, hb]

/-- Claim C6 witness: the three cases evaluated on concrete accounts. -/
theorem claim_c6_commit_code_witness :
    ({ FVMAccount.new_basic 0 0 with
        code_filth := Filth.Dirty, code_cache := [7] }).commit_code []
      = ({ { FVMAccount.new_basic 0 0 with
              code_filth := Filth.Dirty, code_cache := [7] } with
            code_size := some [7].length, code_filth := .Clean },
         storeEmplace [] (FVMAccount.new_basic 0 0).code_hash [7])
    ∧ ({ FVMAccount.new_basic 0 0 with code_filth := Filth.Dirty }).commit_code []
      = ({ { FVMAccount.new_basic 0 0 with code_filth := Filth.Dirty } with
            code_size := some 0, code_filth := .Clean }, [])
    ∧ (AVMAccount.new_basic 0 0).commit_code [] = (AVMAccount.new_basic 0 0, []) := by
  refine ⟨?_, ?_, ?_⟩
  · exact (claim_c6_commit_code
      ({ FVMAccount.new_basic 0 0 with code_filth := Filth.Dirty, code_cache := [7] })
      (AVMAccount.new_basic 0 0) []).1 rfl (by decide)
  · exact (claim_c6_commit_code
      ({ FVMAccount.new_basic 0 0 with code_filth := Filth.Dirty })
      (AVMAccount.new_basic 0 0) []).2.1 rfl rfl
  · exact (claim_c6_commit_code (FVMAccount.new_basic 0 0)
      (AVMAccount.new_basic 0 0) []).2.2.2.2.2 rfl

/-- Claim C7: `sub_balance(x)` panics (modelled as `none`) iff
balance < x; under the precondition balance >= x it returns the account
with balance decreased by x and every other field unchanged. -/
theorem claim_c7_sub_balance (fa : FVMAccount) (aa : AVMAccount) (x : Nat) :
    (fa.sub_balance x = none ↔ fa.balance < x)
    ∧ (x ≤ fa.balance →
      fa.sub_balance x = some { fa with balance := fa.balance - x })
    ∧ (aa.sub_balance x = none ↔ aa.balance < x)
    ∧ (x ≤ aa.balance →
      aa.sub_balance x = some { aa with balance := aa.balance - x }) := by
  refine ⟨?_, ?_, ?_, ?_⟩
  · by_cases h : x ≤ fa.balance
    · simp only [FVMAccount.sub_balance, if_pos h]
      exact iff_of_false (by simp) (by omega)
    · simp only [FVMAccount.sub_balance, if_neg h]
      exact iff_of_true trivial (by omega)
  · intro h
    simp [FVMAccount.sub_balance, h]
  · by_cases h : x ≤ aa.balance
    · simp only [AVMAccount.sub_balance, if_pos h]
      exact iff_of_false (by simp) (by omega)
    · simp only [AVMAccount.sub_balance, if_neg h]
      exact iff_of_true trivial (by omega)
  · intro h
    simp [AVMAccount.sub_balance, h]

/-- Claim C7 witness: a sufficient balance is decreased, an insufficient
one aborts. -/
theorem claim_c7_sub_balance_witness :
    (FVMAccount.new_basic 5 0).sub_balance 3
      = some { FVMAccount.new_basic 5 0 with balance := 5 - 3 }
    ∧ (FVMAccount.new_basic 1 0).sub_balance 2 = none
    ∧ (AVMAccount.new_basic 5 0).sub_balance 3
      = some { AVMAccount.new_basic 5 0 with balance := 5 - 3 }
    ∧ (AVMAccount.new_basic 1 0).sub_balance 2 = none := by
  refine ⟨?_, ?_, ?_, ?_⟩
  · exact (claim_c7_sub_balance (FVMAccount.new_basic 5 0)
      (AVMAccount.new_basic 5 0) 3).2.1 (by decide)
  · exact (claim_c7_sub_balance (FVMAccount.new_basic 1 0)
      (AVMAccount.new_basic 1 0) 2).1.mpr (by decide)
  · exact (claim_c7_sub_balance (FVMAccount.new_basic 5 0)
      (AVMAccount.new_basic 5 0) 3).2.2.2 (by decide)
  · exact (claim_c7_sub_balance (FVMAccount.new_basic 1 0)
      (AVMAccount.new_basic 1 0) 2).2.2.1.mpr (by decide)

/-- Claim C8: serialization round-trip — `from_rlp(rlp(a))` preserves
nonce, balance, storage_root and code_hash (the 4-field BasicAccount
record) and reconstitutes the account with empty storage caches, empty
pending changes, empty code cache, unset code_size, and Clean code_filth. -/
theorem claim_c8_rlp_roundtrip (fa : FVMAccount) (aa : AVMAccount) :
    (FVMAccount.from_rlp fa.rlp).nonce = fa.nonce
    ∧ (FVMAccount.from_rlp fa.rlp).balance = fa.balance
    ∧ (FVMAccount.from_rlp fa.rlp).storage_root = fa.storage_root
    ∧ (FVMAccount.from_rlp fa.rlp).code_hash = fa.code_hash
    ∧ (FVMAccount.from_rlp fa.rlp).storage_cache.entries = []
    ∧ (FVMAccount.from_rlp fa.rlp).storage_changes = []
    ∧ (FVMAccount.from_rlp fa.rlp).storage_cache_dword.entries = []
    ∧ (FVMAccount.from_rlp fa.rlp).storage_changes_dword = []
    ∧ (FVMAccount.from_rlp fa.rlp).code_cache = []
    ∧ (FVMAccount.from_rlp fa.rlp).code_size = none
    ∧ (FVMAccount.from_rlp fa.rlp).code_filth = .Clean
    ∧ (AVMAccount.from_rlp aa.rlp).nonce = aa.nonce
    ∧ (AVMAccount.from_rlp aa.rlp).balance = aa.balance
    ∧ (AVMAccount.from_rlp aa.rlp).storage_root = aa.storage_root
    ∧ (AVMAccount.from_rlp aa.rlp).code_hash = aa.code_hash
    ∧ (AVMAccount.from_rlp aa.rlp).storage_cache.entries = []
    ∧ (AVMAccount.from_rlp aa.rlp).storage_changes = []
    ∧ (AVMAccount.from_rlp aa.rlp).code_cache = []
    ∧ (AVMAccount.from_rlp aa.rlp).code_size = none
    ∧ (AVMAccount.from_rlp aa.rlp).code_filth = .Clean :=
  ⟨rfl, rfl, rfl, rfl, rfl, rfl, rfl, rfl, rfl, rfl, rfl,
   rfl, rfl, rfl, rfl, rfl, rfl, rfl, rfl, rfl⟩

/-- Claim C10: `cache_code(store)` returns `none` exactly when the account
is not already cached (empty code_cache and code_hash different from
BLAKE2B_EMPTY) and the store has no entry under code_hash; and on every
account with code_hash = BLAKE2B_EMPTY and empty code_cache it returns
`some []` for every store, because `is_cached()` already holds. -/
theorem claim_c10_cache_code (fa : FVMAccount) (aa : AVMAccount) (db : HashStore) :
    ((fa.cache_code db).1 = none ↔
      (fa.code_cache = [] ∧ fa.code_hash ≠ BLAKE2B_EMPTY
        ∧ storeGet db fa.code_hash = none))
    ∧ (fa.code_hash = BLAKE2B_EMPTY → fa.code_cache = [] →
      (fa.cache_code db).1 = some [])
    ∧ ((aa.cache_code db).1 = none ↔
      (aa.code_cache = [] ∧ aa.code_hash ≠ BLAKE2B_EMPTY
        ∧ storeGet db aa.code_hash = none))
    ∧ (aa.code_hash = BLAKE2B_EMPTY → aa.code_cache = [] →
      (aa.cache_code db).1 = some []) := by
  refine ⟨?_, ?_, ?_, ?_⟩
  · cases hcl : fa.code_cache with
    | cons y ys => simp [FVMAccount.cache_code, FVMAccount.is_cached, hcl]
    | nil =>
      by_cases hh : fa.code_hash = BLAKE2B_EMPTY
      · simp [FVMAccount.cache_code, FVMAccount.is_cached, hcl, hh]
      · cases hg : storeGet db fa.code_hash with
        | some x => simp [FVMAccount.cache_code, FVMAccount.is_cached, hcl, hh, hg]
        | none => simp [FVMAccount.cache_code, FVMAccount.is_cached, hcl, hh, hg]
  · intro hh hcl
    simp [FVMAccount.cache_code, FVMAccount.is_cached, hcl, hh]
  · cases hcl : aa.code_cache with
    | cons y ys => simp [AVMAccount.cache_code, AVMAccount.is_cached, hcl]
    | nil =>
      by_cases hh : aa.code_hash = BLAKE2B_EMPTY
      · simp [AVMAccount.cache_code, AVMAccount.is_cached, hcl, hh]
      · cases hg : storeGet db aa.code_hash with
        | some x => simp [AVMAccount.cache_code, AVMAccount.is_cached, hcl, hh, hg]
        | none => simp [AVMAccount.cache_code, AVMAccount.is_cached, hcl, hh, hg]
  · intro hh hcl
    simp [AVMAccount.cache_code, AVMAccount.is_cached, hcl, hh]

/-- Claim C10 witness: a miss on an uncached hash with an empty store is
`none`; the empty-code-hash fresh account yields `some []`. -/
theorem claim_c10_cache_code_witness :
    (({ FVMAccount.new_basic 0 0 with code_hash := blake2b [1] }).cache_code []).1 = none
    ∧ ((FVMAccount.new_basic 0 0).cache_code []).1 = some []
    ∧ (({ AVMAccount.new_basic 0 0 with code_hash := blake2b [1] }).cache_code []).1 = none
    ∧ ((AVMAccount.new_basic 0 0).cache_code []).1 = some [] := by
  refine ⟨?_, ?_, ?_, ?_⟩
  · exact (claim_c10_cache_code
      ({ FVMAccount.new_basic 0 0 with code_hash := blake2b [1] })
      (AVMAccount.new_basic 0 0) []).1.mpr ⟨rfl, by decide, rfl⟩
  · exact (claim_c10_cache_code (FVMAccount.new_basic 0 0)
      (AVMAccount.new_basic 0 0) []).2.1 rfl rfl
  · exact (claim_c10_cache_code (FVMAccount.new_basic 0 0)
      ({ AVMAccount.new_basic 0 0 with code_hash := blake2b [1] }) []).2.2.1.mpr
      ⟨rfl, by decide, rfl⟩
  · exact (claim_c10_cache_code (FVMAccount.new_basic 0 0)
      (AVMAccount.new_basic 0 0) []).2.2.2 rfl rfl

/-- Claim C1: for every account (FVM narrow, FVM dword, AVM) and key,
`storage_at` returns the pending value in `storage_changes` if present;
otherwise the value in the LRU `storage_cache` if present (with
`storage_changes` untouched); otherwise it reads through the Secure trie
reader rooted at `storage_root`, decoding an absent entry as the value
type's zero value, inserts the returned value into `storage_cache`, and
leaves `storage_changes` unchanged. -/
theorem claim_c1_storage_at (fa : FVMAccount) (aa : AVMAccount) (db : HashStore)
    (k : Nat) (kb : List Nat) :
    (∀ v, assocGet fa.storage_changes k = some v →
      fa.storage_at db k = some (.ok (v, fa)))
    ∧ (∀ v, assocGet fa.storage_changes k = none →
      fa.storage_cache.find k = some v →
      ∃ a2, fa.storage_at db k = some (.ok (v, a2))
        ∧ a2.storage_changes = fa.storage_changes)
    ∧ (∀ t, assocGet fa.storage_changes k = none →
      fa.storage_cache.find k = none → trieOpen db fa.storage_root = .ok t →
      trieGet t (.fvm k) = none →
      fa.storage_at db k =
        some (.ok (0, { fa with storage_cache := fa.storage_cache.insert k 0 })))
    ∧ (∀ t n, assocGet fa.storage_changes k = none →
      fa.storage_cache.find k = none → trieOpen db fa.storage_root = .ok t →
      trieGet t (.fvm k) = some (.u128 n) →
      fa.storage_at db k =
        some (.ok (n, { fa with storage_cache := fa.storage_cache.insert k n })))
    ∧ (∀ v, assocGet fa.storage_changes_dword k = some v →
      fa.storage_at_dword db k = some (.ok (v, fa)))
    ∧ (∀ v, assocGet fa.storage_changes_dword k = none →
      fa.storage_cache_dword.find k = some v →
      ∃ a2, fa.storage_at_dword db k = some (.ok (v, a2))
        ∧ a2.storage_changes_dword = fa.storage_changes_dword)
    ∧ (∀ t, assocGet fa.storage_changes_dword k = none →
      fa.storage_cache_dword.find k = none → trieOpen db fa.storage_root = .ok t →
      trieGet t (.fvm k) = none →
      fa.storage_at_dword db k =
        some (.ok (0,
          { fa with storage_cache_dword := fa.storage_cache_dword.insert k 0 })))
    ∧ (∀ t n, assocGet fa.storage_changes_dword k = none →
      fa.storage_cache_dword.find k = none → trieOpen db fa.storage_root = .ok t →
      trieGet t (.fvm k) = some (.h256 n) →
      fa.storage_at_dword db k =
        some (.ok (n,
          { fa with storage_cache_dword := fa.storage_cache_dword.insert k n })))
    ∧ (∀ v, assocGet aa.storage_changes kb = some v →
      aa.storage_at db kb = some (.ok (v, aa)))
    ∧ (∀ v, assocGet aa.storage_changes kb = none →
      aa.storage_cache.find kb = some v →
      ∃ a2, aa.storage_at db kb = some (.ok (v, a2))
        ∧ a2.storage_changes = aa.storage_changes)
    ∧ (∀ t, assocGet aa.storage_changes kb = none →
      aa.storage_cache.find kb = none → trieOpen db aa.storage_root = .ok t →
      trieGet t (.avm kb) = none →
      aa.storage_at db kb =
        some (.ok ([], { aa with storage_cache := aa.storage_cache.insert kb [] })))
    ∧ (∀ t b, assocGet aa.storage_changes kb = none →
      aa.storage_cache.find kb = none → trieOpen db aa.storage_root = .ok t →
      trieGet t (.avm kb) = some (.bytes b) →
      aa.storage_at db kb =
        some (.ok (b, { aa with storage_cache := aa.storage_cache.insert kb b }))) := by
  refine ⟨?_, ?_, ?_, ?_, ?_, ?_, ?_, ?_, ?_, ?_, ?_, ?_⟩
  · intro v hv
    simp [FVMAccount.storage_at, FVMAccount.cached_storage_at, hv]
  · intro v hp hcf
    simp only [FVMAccount.storage_at, FVMAccount.cached_storage_at, LruCache.getMut,
      hp, hcf]
    exact ⟨_, rfl, rfl⟩
  · intro t hp hcf hop htg
    simp only [FVMAccount.storage_at, FVMAccount.cached_storage_at, LruCache.getMut,
      hp, hcf, hop, htg]
  · intro t n hp hcf hop htg
    simp only [FVMAccount.storage_at, FVMAccount.cached_storage_at, LruCache.getMut,
      hp, hcf, hop, htg, decodeU128]
  · intro v hv
    simp [FVMAccount.storage_at_dword, FVMAccount.cached_storage_at_dword, hv]
  · intro v hp hcf
    simp only [FVMAccount.storage_at_dword, FVMAccount.cached_storage_at_dword,
      LruCache.getMut, hp, hcf]
    exact ⟨_, rfl, rfl⟩
  · intro t hp hcf hop htg
    simp only [FVMAccount.storage_at_dword, FVMAccount.cached_storage_at_dword,
      LruCache.getMut, hp, hcf, hop, htg]
  · intro t n hp hcf hop htg
    simp only [FVMAccount.storage_at_dword, FVMAccount.cached_storage_at_dword,
      LruCache.getMut, hp, hcf, hop, htg, decodeU256]
  · intro v hv
    simp [AVMAccount.storage_at, AVMAccount.cached_storage_at, hv]
  · intro v hp hcf
    simp only [AVMAccount.storage_at, AVMAccount.cached_storage_at, LruCache.getMut,
      hp, hcf]
    exact ⟨_, rfl, rfl⟩
  · intro t hp hcf hop htg
    simp only [AVMAccount.storage_at, AVMAccount.cached_storage_at, LruCache.getMut,
      hp, hcf, hop, htg]
  · intro t b hp hcf hop htg
    simp only [AVMAccount.storage_at, AVMAccount.cached_storage_at, LruCache.getMut,
      hp, hcf, hop, htg, decodeBytes]

/-- Claim C1 witness: a pending hit returns the pending value unchanged;
read-through on fresh accounts with an empty store returns the zero value
and populates the cache, for all three storage shapes. -/
theorem claim_c1_storage_at_witness :
    ((FVMAccount.new_basic 0 0).set_storage 1 5).storage_at [] 1
      = some (.ok (5, (FVMAccount.new_basic 0 0).set_storage 1 5))
    ∧ (FVMAccount.new_basic 0 0).storage_at [] 2
      = some (.ok (0, { FVMAccount.new_basic 0 0 with
          storage_cache := (FVMAccount.new_basic 0 0).storage_cache.insert 2 0 }))
    ∧ (FVMAccount.new_basic 0 0).storage_at_dword [] 2
      = some (.ok (0, { FVMAccount.new_basic 0 0 with
          storage_cache_dword :=
            (FVMAccount.new_basic 0 0).storage_cache_dword.insert 2 0 }))
    ∧ (AVMAccount.new_basic 0 0).storage_at [] [9]
      = some (.ok ([], { AVMAccount.new_basic 0 0 with
          storage_cache := (AVMAccount.new_basic 0 0).storage_cache.insert [9] [] })) := by
  refine ⟨?_, ?_, ?_, ?_⟩
  · exact (claim_c1_storage_at ((FVMAccount.new_basic 0 0).set_storage 1 5)
      (AVMAccount.new_basic 0 0) [] 1 []).1 5 rfl
  · exact (claim_c1_storage_at (FVMAccount.new_basic 0 0)
      (AVMAccount.new_basic 0 0) [] 2 []).2.2.1 [] rfl rfl rfl rfl
  · exact (claim_c1_storage_at (FVMAccount.new_basic 0 0)
      (AVMAccount.new_basic 0 0) [] 2 []).2.2.2.2.2.2.1 [] rfl rfl rfl rfl
  · exact (claim_c1_storage_at (FVMAccount.new_basic 0 0)
      (AVMAccount.new_basic 0 0) [] 2 [9]).2.2.2.2.2.2.2.2.2.2.1 [] rfl rfl rfl rfl

/-- Claim C2 counterexample: the claim promises that every entry (k, v)
pending in `storage_changes` ends up in the trie (RLP-encoded) when v is
non-zero.  On an FVM account with the same key pending in both the narrow
map (value 5, non-zero) and the dword map (value 0), the dword drain runs
second and removes the key, so after a successful `commit_storage` the
committed sub-trie holds no entry for the key at all. -/
theorem claim_c2_counterexample :
    assocGet ({ FVMAccount.new_contract 0 0 with
        storage_changes := [(1, 5)],
        storage_changes_dword := [(1, 0)] } : FVMAccount).storage_changes 1 = some 5
    ∧ natIsZero 5 = false
    ∧ ({ FVMAccount.new_contract 0 0 with
        storage_changes := [(1, 5)],
        storage_changes_dword := [(1, 0)] } : FVMAccount).commit_storage []
      = .ok ({ FVMAccount.new_contract 0 0 with
            storage_cache := ⟨STORAGE_CACHE_ITEMS, [(1, 5)]⟩,
            storage_cache_dword := ⟨STORAGE_CACHE_ITEMS, [(1, 0)]⟩ },
          [(BLAKE2B_NULL_RLP, [])])
    ∧ trieOpen [(BLAKE2B_NULL_RLP, [])] BLAKE2B_NULL_RLP = .ok []
    ∧ trieGet [] (TK.fvm 1) = none :=
  ⟨rfl, rfl, rfl, rfl, rfl⟩

/-- Claim C2 (amended): after a successful `commit_storage`, the committed
sub-trie (reopened at the new `storage_root` from the updated store)
reflects every pending entry — removed when the value is the zero value,
present with its RLP-encoded form otherwise — where for FVM a key pending
in both maps is governed by the dword entry (the dword drain runs second);
every applied pair is moved into the corresponding storage cache provided
the map held at most the cache's capacity of pending entries (beyond that
the LRU evicts); and all pending-change maps are left empty.  Nodup key
hypotheses are the `HashMap` representation invariant. -/
theorem claim_c2_commit_storage :
    (∀ (a : FVMAccount) (db db2 : HashStore) (a2 : FVMAccount),
      (a.storage_changes.map Prod.fst).Nodup →
      (a.storage_changes_dword.map Prod.fst).Nodup →
      a.storage_changes.length ≤ a.storage_cache.capacity →
      a.storage_changes_dword.length ≤ a.storage_cache_dword.capacity →
      a.commit_storage db = .ok (a2, db2) →
      ∃ t2, trieOpen db2 a2.storage_root = .ok t2
        ∧ (∀ k v, (k, v) ∈ a.storage_changes_dword →
            trieGet t2 (.fvm k) = if natIsZero v then none else some (.h256 v))
        ∧ (∀ k v, (k, v) ∈ a.storage_changes →
            k ∉ a.storage_changes_dword.map Prod.fst →
            trieGet t2 (.fvm k) = if natIsZero v then none else some (.u128 v))
        ∧ (∀ k v, (k, v) ∈ a.storage_changes → a2.storage_cache.find k = some v)
        ∧ (∀ k v, (k, v) ∈ a.storage_changes_dword →
            a2.storage_cache_dword.find k = some v)
        ∧ a2.storage_changes = [] ∧ a2.storage_changes_dword = [])
    ∧ (∀ (a : AVMAccount) (db db2 : HashStore) (a2 : AVMAccount),
      (a.storage_changes.map Prod.fst).Nodup →
      a.storage_changes.length ≤ a.storage_cache.capacity →
      a.commit_storage db = .ok (a2, db2) →
      ∃ t2, trieOpen db2 a2.storage_root = .ok t2
        ∧ (∀ k v, (k, v) ∈ a.storage_changes →
            trieGet t2 (.avm k) = if bytesIsZero v then none else some (.bytes v))
        ∧ (∀ k v, (k, v) ∈ a.storage_changes → a2.storage_cache.find k = some v)
        ∧ a2.storage_changes = []) := by
  constructor
  · intro a db db2 a2 hnd hndd hlen hlend hc
    cases hop : trieOpen db a.storage_root with
    | error e =>
      rw [fvm_commit_storage_err a db e hop] at hc
      cases hc
    | ok t0 =>
      rw [fvm_commit_storage_eq a db t0 hop] at hc
      have ha2 := congrArg Prod.fst (Except.ok.inj hc)
      have hdb2 := congrArg Prod.snd (Except.ok.inj hc)
      subst ha2
      subst hdb2
      refine ⟨trieFold natIsZero TK.fvm SVal.h256 a.storage_changes_dword
        (trieFold natIsZero TK.fvm SVal.u128 a.storage_changes t0),
        ?_, ?_, ?_, ?_, ?_, rfl, rfl⟩
      · by_cases hboth :
          (a.storage_changes.isEmpty && a.storage_changes_dword.isEmpty) = true
        · rw [if_pos hboth]
          rw [Bool.and_eq_true] at hboth
          have h1 := List.isEmpty_iff.mp hboth.1
          have h2 := List.isEmpty_iff.mp hboth.2
          rw [h1, h2]
          simp only [trieFold, List.foldl_nil]
          rw [trieRoot_of_open db a.storage_root t0 hop]
          exact hop
        · rw [if_neg hboth]
          exact trieOpen_emplace_self db _ []
      · intro k v hmem
        exact trieFold_get_of_mem _ _ _ _ _ k v (fun x y h => TK.fvm.inj h) hmem hndd
      · intro k v hmem hnotd
        rw [trieFold_get_of_notMem _ _ _ _ _ k (fun x y h => TK.fvm.inj h) hnotd]
        exact trieFold_get_of_mem _ _ _ _ _ k v (fun x y h => TK.fvm.inj h) hmem hnd
      · intro k v hmem
        exact cacheFold_find_of_mem _ _ k v hmem hnd hlen
      · intro k v hmem
        exact cacheFold_find_of_mem _ _ k v hmem hndd hlend
  · intro a db db2 a2 hnd hlen hc
    cases hop : trieOpen db a.storage_root with
    | error e =>
      rw [avm_commit_storage_err a db e hop] at hc
      cases hc
    | ok t0 =>
      rw [avm_commit_storage_eq a db t0 hop] at hc
      have ha2 := congrArg Prod.fst (Except.ok.inj hc)
      have hdb2 := congrArg Prod.snd (Except.ok.inj hc)
      subst ha2
      subst hdb2
      refine ⟨trieFold bytesIsZero TK.avm SVal.bytes a.storage_changes t0,
        ?_, ?_, ?_, rfl⟩
      · by_cases hone : a.storage_changes.isEmpty = true
        · rw [if_pos hone]
          have h1 := List.isEmpty_iff.mp hone
          rw [h1]
          simp only [trieFold, List.foldl_nil]
          rw [trieRoot_of_open db a.storage_root t0 hop]
          exact hop
        · rw [if_neg hone]
          exact trieOpen_emplace_self db _ []
      · intro k v hmem
        exact trieFold_get_of_mem _ _ _ _ _ k v (fun x y h => TK.avm.inj h) hmem hnd
      · intro k v hmem
        exact cacheFold_find_of_mem _ _ k v hmem hnd hlen

/-- Claim C2 witness: a commit of one narrow and one dword entry (distinct
keys, within cache capacity) lands both entries in the reopened sub-trie
and both caches, and leaves the pending maps empty. -/
theorem claim_c2_commit_storage_witness :
    ({ FVMAccount.new_contract 0 0 with
        storage_changes := [(0, 7)],
        storage_changes_dword := [(1, 9)] } : FVMAccount).commit_storage []
      = .ok ({ FVMAccount.new_contract 0 0 with
            storage_root := Digest.ofTrie [(TK.fvm 1, SVal.h256 9), (TK.fvm 0, SVal.u128 7)],
            storage_cache := ⟨STORAGE_CACHE_ITEMS, [(0, 7)]⟩,
            storage_cache_dword := ⟨STORAGE_CACHE_ITEMS, [(1, 9)]⟩ },
          [(Digest.ofTrie [(TK.fvm 1, SVal.h256 9), (TK.fvm 0, SVal.u128 7)], [])])
    ∧ LruCache.find (⟨STORAGE_CACHE_ITEMS, [(0, 7)]⟩ : LruCache Nat Nat) 0 = some 7
    ∧ LruCache.find (⟨STORAGE_CACHE_ITEMS, [(1, 9)]⟩ : LruCache Nat Nat) 1 = some 9
    ∧ trieGet [(TK.fvm 1, SVal.h256 9), (TK.fvm 0, SVal.u128 7)] (TK.fvm 0)
        = some (SVal.u128 7)
    ∧ trieGet [(TK.fvm 1, SVal.h256 9), (TK.fvm 0, SVal.u128 7)] (TK.fvm 1)
        = some (SVal.h256 9) := by
  have h := claim_c2_commit_storage.1
    ({ FVMAccount.new_contract 0 0 with
        storage_changes := [(0, 7)], storage_changes_dword := [(1, 9)] })
    []
    [(Digest.ofTrie [(TK.fvm 1, SVal.h256 9), (TK.fvm 0, SVal.u128 7)], [])]
    ({ FVMAccount.new_contract 0 0 with
        storage_root := Digest.ofTrie [(TK.fvm 1, SVal.h256 9), (TK.fvm 0, SVal.u128 7)],
        storage_cache := ⟨STORAGE_CACHE_ITEMS, [(0, 7)]⟩,
        storage_cache_dword := ⟨STORAGE_CACHE_ITEMS, [(1, 9)]⟩ })
    (by decide) (by decide) (by decide) (by decide) rfl
  obtain ⟨t2, hopen, hdw, hnw, hcn, hcd, he1, he2⟩ := h
  have hopen2 : trieOpen
      [(Digest.ofTrie [(TK.fvm 1, SVal.h256 9), (TK.fvm 0, SVal.u128 7)], ([] : List Nat))]
      (Digest.ofTrie [(TK.fvm 1, SVal.h256 9), (TK.fvm 0, SVal.u128 7)])
      = .ok [(TK.fvm 1, SVal.h256 9), (TK.fvm 0, SVal.u128 7)] := rfl
  have ht2 : t2 = [(TK.fvm 1, SVal.h256 9), (TK.fvm 0, SVal.u128 7)] :=
    Except.ok.inj (hopen.symm.trans hopen2)
  subst ht2
  refine ⟨rfl, hcn 0 7 (by decide), hcd 1 9 (by decide), ?_, ?_⟩
  · simpa using hnw 0 7 (by decide) (by decide)
  · simpa using hdw 1 9 (by decide)

/-- Claim C3: with no pending changes (and the storage root resolvable in
the store, as `from_existing` requires) `commit_storage` is a no-op that
succeeds, leaving the account — in particular `storage_root` — and the
store unchanged; and after any successful `commit_storage` a second call
with no intervening `set_storage` is exactly such a no-op, so the root is
unchanged. -/
theorem claim_c3_commit_storage_idempotent :
    (∀ (a : FVMAccount) (db : HashStore) (t : TrieMap),
      a.storage_changes = [] → a.storage_changes_dword = [] →
      trieOpen db a.storage_root = .ok t →
      a.commit_storage db = .ok (a, db))
    ∧ (∀ (a : FVMAccount) (db : HashStore) (a2 : FVMAccount) (db2 : HashStore),
      a.commit_storage db = .ok (a2, db2) → a2.commit_storage db2 = .ok (a2, db2))
    ∧ (∀ (a : AVMAccount) (db : HashStore) (t : TrieMap),
      a.storage_changes = [] → trieOpen db a.storage_root = .ok t →
      a.commit_storage db = .ok (a, db))
    ∧ (∀ (a : AVMAccount) (db : HashStore) (a2 : AVMAccount) (db2 : HashStore),
      a.commit_storage db = .ok (a2, db2) → a2.commit_storage db2 = .ok (a2, db2)) := by
  refine ⟨?_, ?_, ?_, ?_⟩
  · intro a db t h1 h2 hop
    exact fvm_commit_noop a db t h1 h2 hop
  · intro a db a2 db2 hc
    cases hop : trieOpen db a.storage_root with
    | error e =>
      rw [fvm_commit_storage_err a db e hop] at hc
      cases hc
    | ok t0 =>
      rw [fvm_commit_storage_eq a db t0 hop] at hc
      have ha2 := congrArg Prod.fst (Except.ok.inj hc)
      have hdb2 := congrArg Prod.snd (Except.ok.inj hc)
      subst ha2
      subst hdb2
      apply fvm_commit_noop _ _
        (trieFold natIsZero TK.fvm SVal.h256 a.storage_changes_dword
          (trieFold natIsZero TK.fvm SVal.u128 a.storage_changes t0)) rfl rfl
      by_cases hboth :
        (a.storage_changes.isEmpty && a.storage_changes_dword.isEmpty) = true
      · rw [if_pos hboth]
        rw [Bool.and_eq_true] at hboth
        have h1 := List.isEmpty_iff.mp hboth.1
        have h2 := List.isEmpty_iff.mp hboth.2
        rw [h1, h2]
        simp only [trieFold, List.foldl_nil]
        rw [trieRoot_of_open db a.storage_root t0 hop]
        exact hop
      · rw [if_neg hboth]
        exact trieOpen_emplace_self db _ []
  · intro a db t h1 hop
    exact avm_commit_noop a db t h1 hop
  · intro a db a2 db2 hc
    cases hop : trieOpen db a.storage_root with
    | error e =>
      rw [avm_commit_storage_err a db e hop] at hc
      cases hc
    | ok t0 =>
      rw [avm_commit_storage_eq a db t0 hop] at hc
      have ha2 := congrArg Prod.fst (Except.ok.inj hc)
      have hdb2 := congrArg Prod.snd (Except.ok.inj hc)
      subst ha2
      subst hdb2
      apply avm_commit_noop _ _
        (trieFold bytesIsZero TK.avm SVal.bytes a.storage_changes t0) rfl
      by_cases hone : a.storage_changes.isEmpty = true
      · rw [if_pos hone]
        have h1 := List.isEmpty_iff.mp hone
        rw [h1]
        simp only [trieFold, List.foldl_nil]
        rw [trieRoot_of_open db a.storage_root t0 hop]
        exact hop
      · rw [if_neg hone]
        exact trieOpen_emplace_self db _ []

/-- Claim C3 witness: the no-op on fresh clean accounts, and a second call
after a real commit reproducing the committed account and store. -/
theorem claim_c3_commit_storage_idempotent_witness :
    (FVMAccount.new_basic 5 1).commit_storage [] = .ok (FVMAccount.new_basic 5 1, [])
    ∧ (AVMAccount.new_basic 5 1).commit_storage [] = .ok (AVMAccount.new_basic 5 1, [])
    ∧ ({ FVMAccount.new_contract 0 0 with
          storage_root := Digest.ofTrie [(TK.fvm 1, SVal.u128 5)],
          storage_cache := ⟨STORAGE_CACHE_ITEMS, [(1, 5)]⟩ } : FVMAccount).commit_storage
        [(Digest.ofTrie [(TK.fvm 1, SVal.u128 5)], [])]
      = .ok ({ FVMAccount.new_contract 0 0 with
            storage_root := Digest.ofTrie [(TK.fvm 1, SVal.u128 5)],
            storage_cache := ⟨STORAGE_CACHE_ITEMS, [(1, 5)]⟩ },
          [(Digest.ofTrie [(TK.fvm 1, SVal.u128 5)], [])]) := by
  refine ⟨?_, ?_, ?_⟩
  · exact claim_c3_commit_storage_idempotent.1 (FVMAccount.new_basic 5 1) [] [] rfl rfl rfl
  · exact claim_c3_commit_storage_idempotent.2.2.1 (AVMAccount.new_basic 5 1) [] [] rfl rfl
  · exact claim_c3_commit_storage_idempotent.2.1
      ((FVMAccount.new_contract 0 0).set_storage 1 5) [] _ _ rfl
